/-
Verification of the CTC (Connectionist Temporal Classification) core of the
MyTorch repository: a shallow embedding in Lean 4 of `CTC/CTC.py` — the
`CTC` class (extend_target_with_blank, get_forward_probs, get_backward_probs,
get_posterior_probs) and the `CTCLoss` class (forward, backward) — together
with theorems settling the specification claims about them.

Numeric values are modelled as exact rationals (ℚ): the Python code performs
plain field arithmetic on numpy float arrays, and every claim under study is
about the algebraic structure of the computation, not about rounding.
Numpy arrays are modelled as (rectangular) nested lists; numpy operations
that can raise (out-of-range indexing, shape-mismatched broadcasting,
assigning a vector into a scalar cell) are modelled with Option, where
`none` stands for the raised exception.
-/
import Mathlib

namespace CTC

/-- Emission lookup `logits[t][e]`: entry `e` of row `t` of the per-sample
(T, C) probability matrix.  Source: `logits[t][extended_symbols[s]]`.
All uses are guarded so that `t` and `e` are in range. -/
def P (logits : List (List ℚ)) (t e : ℕ) : ℚ :=
  (logits.getD t []).getD e 0

/-- Entry (t, s) of a dense 2-D table modelled as a list of rows. -/
def matEntry (M : List (List ℚ)) (t s : ℕ) : ℚ :=
  (M.getD t []).getD s 0

/-- The loop body of `extend_target_with_blank` (source lines 41-44): for each
target symbol, append the symbol and then the blank. -/
def extendedSyms (BLANK : ℕ) : List ℕ → List ℕ
  | [] => []
  | s :: rest => s :: BLANK :: extendedSyms BLANK rest

/-- `CTC.extend_target_with_blank` (source lines 41-62).  Builds
`extended_symbols = [BLANK] ++ (symbol, BLANK for each target symbol)` and the
skip-connect mask `skip_connect[i] = 1 iff i + 2 < N and
extended_symbols[i] != extended_symbols[i + 2]` (a look-ahead comparison).
The source contains no validation and no raise statement: every input,
including an empty target and out-of-range symbol values, returns normally. -/
def extend_target_with_blank (BLANK : ℕ) (target : List ℕ) : List ℕ × List ℕ :=
  let es := BLANK :: extendedSyms BLANK target
  let N := es.length
  (es, (List.range N).map (fun i =>
    if i + 2 < N ∧ es.getD i 0 ≠ es.getD (i + 2) 0 then 1 else 0))

/-- The forward table of `CTC.get_forward_probs` (source lines 88-109) as a
function of (t, s); cells outside the (T, S) array region are 0, matching the
`np.zeros` initialisation.  Row 0: `alpha[0][0] = logits[0][ext[0]]`,
`alpha[0][1] = logits[0][ext[1]]`, rest 0.  Row t (1 ≤ t): the source loop
`alpha[t][s] = (alpha[t-1][s] + alpha[t-1][s-1] (if s ≥ 1)
+ alpha[t-1][s-2] (if skip_connect[s] and s ≥ 2)) * logits[t][ext[s]]`.
Each row depends only on the previous row, so the row-by-row recursion agrees
with the source's in-place fill. -/
def alphaF (logits : List (List ℚ)) (ext skip : List ℕ) : ℕ → ℕ → ℚ
  | 0, s =>
      if s = 0 then P logits 0 (ext.getD 0 0)
      else if s = 1 then P logits 0 (ext.getD 1 0)
      else 0
  | t + 1, s =>
      if s < ext.length then
        (alphaF logits ext skip t s
            + (if 1 ≤ s then alphaF logits ext skip t (s - 1) else 0)
            + (if skip.getD s 0 ≠ 0 ∧ 2 ≤ s then alphaF logits ext skip t (s - 2) else 0))
          * P logits (t + 1) (ext.getD s 0)
      else 0

/-- `CTC.get_forward_probs` (source lines 88-109) on a per-sample (T, C)
matrix.  The guard models the indexing errors numpy raises: `logits[0]`
needs T ≥ 1, `extended_symbols[1]` needs S ≥ 2, and every
`logits[t][extended_symbols[s]]` needs the symbol to be a valid column index
(rows of a numpy array all have the same length). -/
def get_forward_probs (logits : List (List ℚ)) (ext skip : List ℕ) :
    Option (List (List ℚ)) :=
  if 0 < logits.length ∧ 1 < ext.length
      ∧ (∀ r ∈ logits, r.length = (logits.getD 0 []).length)
      ∧ (∀ e ∈ ext, e < (logits.getD 0 []).length) then
    some ((List.range logits.length).map (fun t =>
      (List.range ext.length).map (fun s => alphaF logits ext skip t s)))
  else none

/-- First phase of `CTC.get_backward_probs` (source lines 141-151), indexed by
`k` = number of rows above the last row: `betaRawF k s` is the value the
source stores in `beta[T-1-k][s]` before the final division pass.
`k = 0` is the base case `beta[T-1][-1] = logits[T-1][ext[-1]]`,
`beta[T-1][-2] = logits[T-1][ext[-2]]` (negative indices: S-1 and S-2), other
entries of the last row stay 0.  `k + 1` is one step of the loop
`for t in reversed(range(T-1))` at `t = T-2-k`, reading row `t+1 = T-1-k`. -/
def betaRawF (logits : List (List ℚ)) (ext skip : List ℕ) : ℕ → ℕ → ℚ
  | 0, s =>
      if s = ext.length - 1 then P logits (logits.length - 1) (ext.getD s 0)
      else if s = ext.length - 2 then P logits (logits.length - 1) (ext.getD s 0)
      else 0
  | k + 1, s =>
      if s < ext.length then
        (betaRawF logits ext skip k s
            + (if s + 1 < ext.length then betaRawF logits ext skip k (s + 1) else 0)
            + (if skip.getD s 0 ≠ 0 ∧ s + 2 < ext.length then betaRawF logits ext skip k (s + 2) else 0))
          * P logits (logits.length - 2 - k) (ext.getD s 0)
      else 0

/-- The first-phase backward value at time index `t` (row `t` of the table
before the division pass): `beta[t][s] = betaRawF (T-1-t) s`. -/
def betaRawAt (logits : List (List ℚ)) (ext skip : List ℕ) (t s : ℕ) : ℚ :=
  betaRawF logits ext skip (logits.length - 1 - t) s

/-- `CTC.get_backward_probs` (source lines 135-157): the two-phase table, the
second phase (source lines 153-155) dividing every entry once by
`logits[t][ext[s]]`.  Guard as in `get_forward_probs`: `beta[T-1]` needs
T ≥ 1, `beta[T-1][-2]` and `ext[-2]` need S ≥ 2, and every emission lookup
needs a valid column index. -/
def get_backward_probs (logits : List (List ℚ)) (ext skip : List ℕ) :
    Option (List (List ℚ)) :=
  if 0 < logits.length ∧ 1 < ext.length
      ∧ (∀ r ∈ logits, r.length = (logits.getD 0 []).length)
      ∧ (∀ e ∈ ext, e < (logits.getD 0 []).length) then
    some ((List.range logits.length).map (fun t =>
      (List.range ext.length).map (fun s =>
        betaRawAt logits ext skip t s / P logits t (ext.getD s 0))))
  else none

/-- `CTC.get_posterior_probs` (source lines 177-188).
`gamma = alpha * beta` (elementwise, identical shapes at every call site),
`sumgamma = np.sum(gamma, axis=1)` of shape (T,), then the in-place division
`gamma /= sumgamma`.  Numpy broadcasts the (T,)-vector against the TRAILING
axis of the (T, S) matrix, so the statement completes only when T = 1
(every entry divided by `sumgamma[0]`) or T = S (entry (t, s) divided by
`sumgamma[s]` — the row-sum of row s, not of row t); any other shape raises
a broadcasting ValueError, modelled as `none`.  An empty first axis (T = 0)
also raises unless S = 0 and is modelled as `none` (no call site produces
an empty table). -/
def get_posterior_probs (alpha beta : List (List ℚ)) : Option (List (List ℚ)) :=
  let gamma := List.zipWith (fun r1 r2 => List.zipWith (· * ·) r1 r2) alpha beta
  let sumg := gamma.map (fun r => r.sum)
  if gamma.length = 1 then
    some (gamma.map (fun r => r.map (· / sumg.getD 0 0)))
  else if 0 < gamma.length ∧ ∀ r ∈ gamma, r.length = sumg.length then
    some (gamma.map (fun r => List.zipWith (· / ·) r sumg))
  else none

/-- The per-sample loss computation of `CTCLoss.forward` (source lines
278-281), with the batch index dropped (the source reads
`logits[t, batch_itr, ext[s]]`; here `logits` is that sample's (T, C)
matrix): each entry of posterior row t < input_length is multiplied by
`lg(P(t, ext[s]))` (`lg` models `np.log`), rows t ≥ input_length are left as
they are, and the grand total is negated. -/
def divergenceLoss (lg : ℚ → ℚ) (post : List (List ℚ)) (logits : List (List ℚ))
    (ext : List ℕ) (il : ℕ) : ℚ :=
  let post2 := (List.range post.length).map (fun t =>
    if t < il then
      (List.range (post.getD t []).length).map (fun s =>
        (post.getD t []).getD s 0 * lg (P logits t (ext.getD s 0)))
    else post.getD t []);
  ((post2.map (fun r => r.sum)).sum) * (-1)

end CTC

namespace CTCLoss

/-- A (T, B, C) numpy tensor as nested lists: time slices of (B, C) rows. -/
abbrev Ten3 := List (List (List ℚ))

/-- The scalar `logits[t][e][0]` seen by the (T, B, C) tensor when every
(B, C) slice row has length 1: squeezing away the trailing axis gives the
(T, B) matrix actually scanned by the recurrences in that degenerate case. -/
def squeeze2 (lg : Ten3) : List (List ℚ) :=
  lg.map (fun slice => slice.map (fun r => r.getD 0 0))

/-- `CTC.get_forward_probs` as invoked by `CTCLoss.forward`/`backward`
(source lines 272 and 343): the first argument is the full, untruncated
(T, B, C) tensor, not a per-sample (T, C) matrix.  `logits[t][e]` is then the
length-C row `e` of the (B, C) time slice, so `e` must be a valid row index
(< B), and the statement `alpha[t][s] = logits[t][ext[s]] * ...` stores a
length-C vector into the scalar cell `alpha[t][s]`, which raises a numpy
ValueError unless C = 1.  When every slice row has length 1 the computation
degenerates to the 2-D recurrence on the squeezed (T, B) matrix. -/
def get_forward_probs_3d (lg : Ten3) (ext skip : List ℕ) :
    Option (List (List ℚ)) :=
  if 0 < lg.length ∧ 1 < ext.length
      ∧ (∀ slice ∈ lg, ∀ r ∈ slice, r.length = 1)
      ∧ (∀ slice ∈ lg, slice.length = (lg.getD 0 []).length)
      ∧ (∀ e ∈ ext, e < (lg.getD 0 []).length) then
    some ((List.range lg.length).map (fun t =>
      (List.range ext.length).map (fun s => CTC.alphaF (squeeze2 lg) ext skip t s)))
  else none

/-- `CTC.get_backward_probs` as invoked by `CTCLoss.forward`/`backward`
(source lines 274 and 345) on the full (T, B, C) tensor; fails for the same
reasons as `get_forward_probs_3d`. -/
def get_backward_probs_3d (lg : Ten3) (ext skip : List ℕ) :
    Option (List (List ℚ)) :=
  if 0 < lg.length ∧ 1 < ext.length
      ∧ (∀ slice ∈ lg, ∀ r ∈ slice, r.length = 1)
      ∧ (∀ slice ∈ lg, slice.length = (lg.getD 0 []).length)
      ∧ (∀ e ∈ ext, e < (lg.getD 0 []).length) then
    some ((List.range lg.length).map (fun t =>
      (List.range ext.length).map (fun s =>
        CTC.betaRawAt (squeeze2 lg) ext skip t s
          / CTC.P (squeeze2 lg) t (ext.getD s 0))))
  else none

/-- The in-place row "truncation" `target[b] = target[b, :tl]` (source lines
265 and 336).  The left side is the whole padded row, so numpy broadcasts the
length-`min tl padded` slice back into it: a no-op when the slice already
fills the row, a fill with the first element when the slice has length 1, and
a broadcasting ValueError otherwise. -/
def pyTruncRowAssign (row : List ℕ) (tl : ℕ) : Option (List ℕ) :=
  let s := row.take tl
  if s.length = row.length then some row
  else if s.length = 1 then some (List.replicate row.length (s.getD 0 0))
  else none

/-- The in-place slice "truncation" `logits[:, b, :] = logits[:il, b, :]`
(source lines 267 and 338).  The left side is the whole (T, C) plane of
sample b, so the assignment is a no-op when `min il T = T`, broadcasts time
row 0 of sample b across all T when `min il T = 1`, and raises a broadcasting
ValueError otherwise.  Batch dimensions are assumed aligned (`b` a valid
sample index), as at every call site. -/
def pyTruncLogitsAssign (lg : Ten3) (b il : ℕ) : Option Ten3 :=
  let k := min il lg.length
  if k = lg.length then some lg
  else if k = 1 then
    some (lg.map (fun slice => slice.set b ((lg.getD 0 []).getD b [])))
  else none

/-- One iteration of the batch loop of `CTCLoss.forward` (source lines
260-289) for sample `b`: truncate the target row and the logits plane
in place, extend the (full padded) target row with blanks, run the forward,
backward and posterior passes on the untruncated 3-D tensor, then weight the
posterior rows `t < input_length` by `lg(logits[t, b, ext[s]])` (`lg` models
`np.log`; `posterior_prob[t]` needs `t` < T) and negate the grand total.
Returns the mutated (target, logits) state and the sample's loss. -/
def forwardStep (lg : ℚ → ℚ) (BLANK : ℕ) (target : List (List ℕ)) (logits : Ten3)
    (b il tl : ℕ) : Option (List (List ℕ) × Ten3 × ℚ) := do
  let row ← pyTruncRowAssign (target.getD b []) tl
  let target' := target.set b row
  let logits' ← pyTruncLogitsAssign logits b il
  let es := CTC.extend_target_with_blank BLANK row
  let alpha ← get_forward_probs_3d logits' es.1 es.2
  let beta ← get_backward_probs_3d logits' es.1 es.2
  let post ← CTC.get_posterior_probs alpha beta
  if il ≤ post.length ∧ ∀ e ∈ es.1, e < (((logits'.getD 0 []).getD b []).length) then
    some (target', logits',
      CTC.divergenceLoss lg post (logits'.map (fun slice => slice.getD b [])) es.1 il)
  else none

/-- The batch loop of `CTCLoss.forward`, threading the in-place mutations of
`target` and `logits` from one sample to the next and collecting the
per-sample losses. -/
def forwardLoop (lg : ℚ → ℚ) (BLANK : ℕ) (il tl : List ℕ) :
    List ℕ → List (List ℕ) → Ten3 → Option (List ℚ)
  | [], _, _ => some []
  | b :: bs, target, logits => do
    let (target', logits', loss) ←
      forwardStep lg BLANK target logits b (il.getD b 0) (tl.getD b 0)
    let rest ← forwardLoop lg BLANK il tl bs target' logits'
    some (loss :: rest)

/-- `CTCLoss.forward` (source lines 218-293): loop over the `B = target.shape[0]`
samples, then `total_loss = np.sum(total_loss) / B`. -/
def forward (lg : ℚ → ℚ) (BLANK : ℕ) (logits : Ten3) (target : List (List ℕ))
    (input_lengths target_lengths : List ℕ) : Option ℚ := do
  let losses ← forwardLoop lg BLANK input_lengths target_lengths
    (List.range target.length) target logits
  some (losses.sum / (target.length : ℚ))

/-- One iteration of the batch loop of `CTCLoss.backward` (source lines
333-359) for sample `b`: the same truncations and (3-D) forward/backward/
posterior passes as the loss pass — `get_posterior_probs` is even called
twice, lines 347 and 354, with the same arguments — then, for EVERY
`t in range(T)` (T the full padded time length, not the sample's input
length), reset `dY[t, b, :]` to zeros and subtract
`posterior[t][s] / logits[t, b, ext[s]]` at column `ext[s]` for each extended
position s. -/
def backwardStep (BLANK : ℕ) (target : List (List ℕ)) (logits : Ten3) (dY : Ten3)
    (b il tl : ℕ) : Option (List (List ℕ) × Ten3 × Ten3) := do
  let row ← pyTruncRowAssign (target.getD b []) tl
  let target' := target.set b row
  let logits' ← pyTruncLogitsAssign logits b il
  let es := CTC.extend_target_with_blank BLANK row
  let alpha ← get_forward_probs_3d logits' es.1 es.2
  let beta ← get_backward_probs_3d logits' es.1 es.2
  let _post1 ← CTC.get_posterior_probs alpha beta
  let post ← CTC.get_posterior_probs alpha beta
  let C := ((dY.getD 0 []).getD b []).length
  if ∀ e ∈ es.1, e < C then
    let dY' := (List.range dY.length).map (fun t =>
      (dY.getD t []).set b
        ((List.range es.1.length).foldl (fun acc s =>
            acc.set (es.1.getD s 0)
              (acc.getD (es.1.getD s 0) 0 -
                (post.getD t []).getD s 0
                  / (((logits'.getD t []).getD b []).getD (es.1.getD s 0) 0)))
          (List.replicate C 0)))
    some (target', logits', dY')
  else none

/-- The batch loop of `CTCLoss.backward`, threading the in-place mutations of
`target`, `logits` and `dY` from one sample to the next. -/
def backwardLoop (BLANK : ℕ) (il tl : List ℕ) :
    List ℕ → List (List ℕ) → Ten3 → Ten3 → Option Ten3
  | [], _, _, dY => some dY
  | b :: bs, target, logits, dY => do
    let (target', logits', dY') ←
      backwardStep BLANK target logits dY b (il.getD b 0) (tl.getD b 0)
    backwardLoop BLANK il tl bs target' logits' dY'

/-- `CTCLoss.backward` (source lines 295-361), as a function of the state the
forward call stores on the object (`self.logits`, `self.target`,
`self.input_lengths`, `self.target_lengths`): `dY = np.full_like(logits, 0)`,
then the batch loop over `B = logits.shape[1]` samples. -/
def backward (BLANK : ℕ) (logits : Ten3) (target : List (List ℕ))
    (input_lengths target_lengths : List ℕ) : Option Ten3 :=
  backwardLoop BLANK input_lengths target_lengths
    (List.range ((logits.getD 0 []).length)) target logits
    (logits.map (fun slice => slice.map (fun r => r.map (fun _ => (0 : ℚ)))))

end CTCLoss

/-- Entries of a tabulated table: `((List.range n).map f).getD i d = f i`
for `i < n`. -/
theorem getD_range_map {α : Type} (f : ℕ → α) {n i : ℕ} (d : α) (h : i < n) :
    ((List.range n).map f).getD i d = f i := by
  rw [List.getD_eq_getElem _ _ (by simpa using h)]
  simp

/-- C1: the claim reads: for alpha and beta of identical shape whose rows of
products have nonzero sums, `get_posterior_probs` returns gamma with each
time row divided by its own row-sum, rows summing to 1.  The code instead
divides with a (T,)-shaped vector broadcast along the TRAILING axis: at the
2×2 input alpha = [[1,2],[3,4]], beta = [[1,1],[1,1]] (row-sums 3 and 7) it
returns [[1/3, 2/7], [1, 4/7]] — entry (t,s) divided by the row-sum of row s,
not row t — whose first row sums to 13/21 ≠ 1; and at any T×S shape with
T, S > 1 and T ≠ S (here 2×3) the broadcast raises instead of returning. -/
theorem c1_posterior_misnormalized :
    CTC.get_posterior_probs [[(1 : ℚ), 2], [3, 4]] [[1, 1], [1, 1]]
        = some [[1/3, 2/7], [1, 4/7]]
      ∧ ((1 : ℚ)/3 + 2/7 ≠ 1)
      ∧ CTC.get_posterior_probs [[(1 : ℚ), 2, 3], [4, 5, 6]] [[1, 1, 1], [1, 1, 1]]
        = none := by
  refine ⟨by norm_num [CTC.get_posterior_probs], by norm_num,
    by norm_num [CTC.get_posterior_probs]⟩

/-- C2: the claim (and the function's own docstring example
`[0,0,0,1,0,0,0,1,0]` for target [B,IY,IY,F]) says the skip mask is 0 below
position 2 and compares `extended[s]` with `extended[s-2]`.  The code instead
compares `extended[i]` with `extended[i+2]` (a look-ahead): on target
[1,2,2,3] it returns the mask [0,1,0,0,0,1,0,0,0], which is 1 at position
1 < 2 and differs from the documented mask [0,0,0,1,0,0,0,1,0]. -/
theorem c2_skip_mask_lookahead :
    CTC.extend_target_with_blank 0 [1, 2, 2, 3]
        = ([0, 1, 0, 2, 0, 2, 0, 3, 0], [0, 1, 0, 0, 0, 1, 0, 0, 0])
      ∧ (([0, 1, 0, 0, 0, 1, 0, 0, 0] : List ℕ).getD 1 0 ≠ 0)
      ∧ ([0, 1, 0, 0, 0, 1, 0, 0, 0] : List ℕ) ≠ [0, 0, 0, 1, 0, 0, 0, 1, 0] := by
  refine ⟨by decide, by decide, by decide⟩

/-- C3: the claim reads: the gradient tensor returned by `CTCLoss.backward`
is zero beyond each sample's input length and at columns outside its extended
sequence.  On the one-sample batch with T = 1, C = 2 emission [[0.3, 0.7]],
target [1] and both lengths 1, `CTCLoss.backward` returns no gradient tensor
at all: it hands the full 3-D logits tensor to `CTC.get_forward_probs`, whose
first statement stores the length-2 vector `logits[0][0]` into the scalar
cell `alpha[0][0]` and raises. -/
theorem c3_backward_raises :
    CTCLoss.backward 0 [[[(3 : ℚ)/10, 7/10]]] [[1]] [1] [1] = none := by
  decide

/-- C4: the claim reads: both passes truncate the target row to the declared
target length before extending it.  The code's in-place "truncation"
`target[b] = target[b, :tl]` assigns a length-tl slice back into the whole
padded row: with padded row [1,2,1] and declared length 2 the broadcast
raises, so both `CTCLoss.forward` and `CTCLoss.backward` fail on this batch
instead of running the truncated pipeline. -/
theorem c4_truncation_raises :
    (∀ lg : ℚ → ℚ,
        CTCLoss.forward lg 0 [[[(1 : ℚ)/2, 1/4, 1/4]]] [[1, 2, 1]] [1] [2] = none)
      ∧ CTCLoss.backward 0 [[[(1 : ℚ)/2, 1/4, 1/4]]] [[1, 2, 1]] [1] [2] = none := by
  exact ⟨fun lg => rfl, by decide⟩

/-- C5 counterexample: the claim reads: `extend_target_with_blank` fails with
`InvalidInputError` on an empty target or an out-of-range label.  The source
contains no validation and no raise statement: on the empty target it returns
([BLANK], [0]) and on the out-of-range label 99 it returns the usual extended
sequence, in both cases succeeding. -/
theorem c5_no_validation_counterexample :
    CTC.extend_target_with_blank 0 [] = ([0], [0])
      ∧ CTC.extend_target_with_blank 0 [99] = ([0, 99, 0], [0, 0, 0]) := by
  refine ⟨by decide, by decide⟩

/-- Length of the blank-interleaving loop: 2 symbols per target symbol. -/
theorem extendedSyms_length (BLANK : ℕ) (target : List ℕ) :
    (CTC.extendedSyms BLANK target).length = 2 * target.length := by
  induction target with
  | nil => rfl
  | cons s rest ih => simp [CTC.extendedSyms, ih]; ring

/-- C5 amended: `extend_target_with_blank` performs no input validation and
never raises: for every BLANK and every target — including the empty target
and targets with labels outside any vocabulary range — it returns normally,
with an extended sequence of length 2L+1 starting with BLANK and a skip mask
of the same length. -/
theorem c5_extend_total (BLANK : ℕ) (target : List ℕ) :
    (CTC.extend_target_with_blank BLANK target).1.length = 2 * target.length + 1
      ∧ (CTC.extend_target_with_blank BLANK target).2.length = 2 * target.length + 1
      ∧ (CTC.extend_target_with_blank BLANK target).1.getD 0 0 = BLANK := by
  refine ⟨?_, ?_, rfl⟩
  · simp [CTC.extend_target_with_blank, extendedSyms_length, Nat.add_comm]
  · simp [CTC.extend_target_with_blank, extendedSyms_length, Nat.add_comm]

/-- C7: the claim reads: `CTCLoss.forward` returns the arithmetic mean of the
per-sample losses for every batch.  On the one-sample batch with T = 1,
C = 2 emission [[0.5, 0.5]], target [1] and both lengths 1 it returns no
scalar at all, for any model of `np.log`: the full 3-D logits tensor is
passed into the 2-D `CTC.get_forward_probs`, which raises storing the
length-2 vector `logits[0][0]` into the scalar `alpha[0][0]`. -/
theorem c7_forward_raises :
    ∀ lg : ℚ → ℚ,
      CTCLoss.forward lg 0 [[[(1 : ℚ)/2, 1/2]]] [[1]] [1] [1] = none :=
  fun _ => rfl

/-- C6 counterexample: the claim reads: on target [A] = [1], BLANK = 0, T = 1,
emission row [0.3, 0.7], the forward/backward/posterior round trip yields the
posterior [p_blank, p_symbol] = [0.3, 0.7] (normalized) at positions 0 and 1.
Running the three passes of the code actually yields the posterior [0, 1, 0]:
with a single time step the only alignment covering the target emits the
symbol, so all posterior mass sits at extended position 1. -/
theorem c6_roundtrip_counterexample :
    CTC.extend_target_with_blank 0 [1] = ([0, 1, 0], [0, 0, 0])
      ∧ CTC.get_forward_probs [[(3 : ℚ)/10, 7/10]] [0, 1, 0] [0, 0, 0]
          = some [[3/10, 7/10, 0]]
      ∧ CTC.get_backward_probs [[(3 : ℚ)/10, 7/10]] [0, 1, 0] [0, 0, 0]
          = some [[0, 1, 1]]
      ∧ CTC.get_posterior_probs [[(3 : ℚ)/10, 7/10, 0]] [[0, 1, 1]]
          = some [[0, 1, 0]]
      ∧ ([[(0 : ℚ), 1, 0]] : List (List ℚ)) ≠ [[3/10, 7/10, 0]] := by
  refine ⟨by decide,
    by norm_num [CTC.get_forward_probs, CTC.alphaF, CTC.P, List.range_succ],
    by norm_num [CTC.get_backward_probs, CTC.betaRawAt, CTC.betaRawF, CTC.P,
      List.range_succ],
    by norm_num [CTC.get_posterior_probs],
    by norm_num⟩

/-- C6 amended: on target [1], BLANK = 0, T = 1, emission row [0.3, 0.7], the
round trip yields the posterior [0, 1, 0] (all mass at the symbol position),
and the per-sample divergence of `CTCLoss.forward` applied to that posterior
equals −(1·log 0.7) = −log(p_symbol), for any model `lg` of `np.log`;
`CTCLoss.forward` itself, on the single-sample batch of this example, raises
a shape error (it passes the 3-D logits tensor into the 2-D forward routine)
instead of returning that value. -/
theorem c6_roundtrip_amended (lg : ℚ → ℚ) :
    CTC.get_posterior_probs [[(3 : ℚ)/10, 7/10, 0]] [[0, 1, 1]]
        = some [[0, 1, 0]]
      ∧ CTC.divergenceLoss lg [[0, 1, 0]] [[(3 : ℚ)/10, 7/10]] [0, 1, 0] 1
          = -(lg (7/10))
      ∧ CTCLoss.forward lg 0 [[[(3 : ℚ)/10, 7/10]]] [[1]] [1] [1] = none := by
  refine ⟨by norm_num [CTC.get_posterior_probs], ?_, rfl⟩
  simp [CTC.divergenceLoss, CTC.P, List.range_succ]

/-- C10: the claim reads: `get_posterior_probs` completes only when T = S or
T = 1 (or S = 1), and raises a broadcasting shape error whenever T, S > 1 and
T ≠ S.  The in-place division of the (T, S) product table by the (T,)-shaped
row-sum vector broadcasts along the trailing axis: it is indeed undefined for
T, S > 1 with T ≠ S, and whenever it completes, T = S or T = 1 holds (so in
particular T = S or T = 1 or S = 1). -/
theorem c10_posterior_shape (a b : List (List ℚ)) (S : ℕ)
    (ha : ∀ r ∈ a, r.length = S) (hb : ∀ r ∈ b, r.length = S)
    (hab : a.length = b.length) :
    (1 < a.length → 1 < S → a.length ≠ S →
        CTC.get_posterior_probs a b = none)
      ∧ (∀ g, CTC.get_posterior_probs a b = some g →
        a.length = S ∨ a.length = 1 ∨ S = 1) := by
  have hg : (List.zipWith (fun r1 r2 => List.zipWith (· * ·) r1 r2) a b).length
      = a.length := by
    simp [hab]
  have hrow : ∀ i (h : i < (List.zipWith (fun r1 r2 =>
      List.zipWith (· * ·) r1 r2) a b).length),
      ((List.zipWith (fun r1 r2 => List.zipWith (· * ·) r1 r2) a b)[i]).length
        = S := by
    intro i h
    rw [List.getElem_zipWith]
    have hia : i < a.length := by omega
    have hib : i < b.length := by omega
    simp [ha a[i] (a.getElem_mem hia), hb b[i] (b.getElem_mem hib)]
  constructor
  · intro hT hS hne
    simp only [CTC.get_posterior_probs]
    rw [if_neg (by omega), if_neg]
    intro hc
    have h0 : 0 < (List.zipWith (fun r1 r2 =>
        List.zipWith (· * ·) r1 r2) a b).length := by omega
    have := hc.2 _ (List.getElem_mem h0)
    rw [hrow 0 h0] at this
    simp [hg] at this
    omega
  · intro g hsome
    simp only [CTC.get_posterior_probs] at hsome
    by_cases h1 : (List.zipWith (fun r1 r2 =>
        List.zipWith (· * ·) r1 r2) a b).length = 1
    · right; left; omega
    · rw [if_neg h1] at hsome
      by_cases h2 : 0 < (List.zipWith (fun r1 r2 =>
            List.zipWith (· * ·) r1 r2) a b).length
          ∧ ∀ r ∈ List.zipWith (fun r1 r2 => List.zipWith (· * ·) r1 r2) a b,
            r.length = ((List.zipWith (fun r1 r2 =>
              List.zipWith (· * ·) r1 r2) a b).map (fun r => r.sum)).length
      · left
        have h0 : 0 < (List.zipWith (fun r1 r2 =>
            List.zipWith (· * ·) r1 r2) a b).length := h2.1
        have := h2.2 _ (List.getElem_mem h0)
        rw [hrow 0 h0] at this
        simp [hg] at this
        omega
      · rw [if_neg h2] at hsome
        exact absurd hsome (by simp)

/-- Witness for the claim-C10 theorem at the concrete 2×3 tables of ones:
the broadcast of the length-2 row-sum vector against 3 columns is undefined,
so `get_posterior_probs` returns `none`. -/
theorem c10_posterior_shape_witness :
    (1 < 2 → 1 < 3 → (2 : ℕ) ≠ 3 →
        CTC.get_posterior_probs [[(1 : ℚ), 1, 1], [1, 1, 1]]
          [[(1 : ℚ), 1, 1], [1, 1, 1]] = none)
      ∧ (∀ g, CTC.get_posterior_probs [[(1 : ℚ), 1, 1], [1, 1, 1]]
          [[(1 : ℚ), 1, 1], [1, 1, 1]] = some g → (2 : ℕ) = 3 ∨ 2 = 1 ∨ 3 = 1) :=
  c10_posterior_shape [[(1 : ℚ), 1, 1], [1, 1, 1]] [[(1 : ℚ), 1, 1], [1, 1, 1]] 3
    (by decide) (by decide) (by decide)

/-- C8: the claim reads: `get_forward_probs` returns alpha with
`alpha[0][0] = P(0, ext[0])`, `alpha[0][1] = P(0, ext[1])`, the rest of row 0
zero, and for 1 ≤ t < T, s < S,
`alpha[t][s] = (alpha[t-1][s] + alpha[t-1][s-1] (if s ≥ 1) + alpha[t-1][s-2]
(if the skip mask is set at s and s ≥ 2)) * P(t, ext[s])`.  This is exactly
what the code computes. -/
theorem c8_forward_recurrence
    (logits : List (List ℚ)) (ext skip : List ℕ) (alp : List (List ℚ))
    (h : CTC.get_forward_probs logits ext skip = some alp) :
    CTC.matEntry alp 0 0 = CTC.P logits 0 (ext.getD 0 0)
      ∧ CTC.matEntry alp 0 1 = CTC.P logits 0 (ext.getD 1 0)
      ∧ (∀ s, 2 ≤ s → s < ext.length → CTC.matEntry alp 0 s = 0)
      ∧ (∀ t s, 1 ≤ t → t < logits.length → s < ext.length →
        CTC.matEntry alp t s =
          (CTC.matEntry alp (t - 1) s
            + (if 1 ≤ s then CTC.matEntry alp (t - 1) (s - 1) else 0)
            + (if skip.getD s 0 ≠ 0 ∧ 2 ≤ s then CTC.matEntry alp (t - 1) (s - 2) else 0))
            * CTC.P logits t (ext.getD s 0)) := by
  rw [CTC.get_forward_probs] at h
  split_ifs at h with hg
  · obtain ⟨hT, hS, -, -⟩ := hg
    rw [Option.some.injEq] at h
    have hE : ∀ t s, t < logits.length → s < ext.length →
        CTC.matEntry alp t s = CTC.alphaF logits ext skip t s := by
      intro t s ht hs
      rw [← h, CTC.matEntry, getD_range_map _ _ ht, getD_range_map _ _ hs]
    refine ⟨?_, ?_, ?_, ?_⟩
    · rw [hE 0 0 hT (by omega)]; simp [CTC.alphaF]
    · rw [hE 0 1 hT hS]; simp [CTC.alphaF]
    · intro s h2 hs
      rw [hE 0 s hT hs]
      simp only [CTC.alphaF]
      rw [if_neg (by omega), if_neg (by omega)]
    · intro t s h1 ht hs
      obtain ⟨u, rfl⟩ : ∃ u, t = u + 1 := ⟨t - 1, by omega⟩
      simp only [Nat.add_sub_cancel]
      rw [hE (u + 1) s ht hs, hE u s (by omega) hs,
        hE u (s - 1) (by omega) (by omega), hE u (s - 2) (by omega) (by omega)]
      simp only [CTC.alphaF]
      exact if_pos hs

/-- Witness for the claim-C8 theorem at the concrete 2×2 emission matrix
[[1/2, 1/3], [1/4, 1/5]] and extended sequence [0, 1, 0] with no skips:
the forward table is [[1/2, 1/3, 0], [1/8, 1/6, 1/12]] and the base-case and
recurrence equations hold on it. -/
theorem c8_forward_recurrence_witness :
    (CTC.get_forward_probs [[(1 : ℚ)/2, 1/3], [1/4, 1/5]] [0, 1, 0] [0, 0, 0]
        = some [[1/2, 1/3, 0], [1/8, 1/6, 1/12]])
      ∧ (CTC.matEntry [[(1 : ℚ)/2, 1/3, 0], [1/8, 1/6, 1/12]] 0 0
            = CTC.P [[(1 : ℚ)/2, 1/3], [1/4, 1/5]] 0 (([0, 1, 0] : List ℕ).getD 0 0)
          ∧ CTC.matEntry [[(1 : ℚ)/2, 1/3, 0], [1/8, 1/6, 1/12]] 0 1
            = CTC.P [[(1 : ℚ)/2, 1/3], [1/4, 1/5]] 0 (([0, 1, 0] : List ℕ).getD 1 0)
          ∧ (∀ s, 2 ≤ s → s < ([0, 1, 0] : List ℕ).length →
              CTC.matEntry [[(1 : ℚ)/2, 1/3, 0], [1/8, 1/6, 1/12]] 0 s = 0)
          ∧ (∀ t s, 1 ≤ t → t < ([[(1 : ℚ)/2, 1/3], [1/4, 1/5]] : List (List ℚ)).length →
              s < ([0, 1, 0] : List ℕ).length →
              CTC.matEntry [[(1 : ℚ)/2, 1/3, 0], [1/8, 1/6, 1/12]] t s =
                (CTC.matEntry [[(1 : ℚ)/2, 1/3, 0], [1/8, 1/6, 1/12]] (t - 1) s
                  + (if 1 ≤ s then
                      CTC.matEntry [[(1 : ℚ)/2, 1/3, 0], [1/8, 1/6, 1/12]] (t - 1) (s - 1)
                    else 0)
                  + (if ([0, 0, 0] : List ℕ).getD s 0 ≠ 0 ∧ 2 ≤ s then
                      CTC.matEntry [[(1 : ℚ)/2, 1/3, 0], [1/8, 1/6, 1/12]] (t - 1) (s - 2)
                    else 0))
                  * CTC.P [[(1 : ℚ)/2, 1/3], [1/4, 1/5]] t (([0, 1, 0] : List ℕ).getD s 0))) :=
  ⟨by norm_num [CTC.get_forward_probs, CTC.alphaF, CTC.P, List.range_succ],
    c8_forward_recurrence [[(1 : ℚ)/2, 1/3], [1/4, 1/5]] [0, 1, 0] [0, 0, 0]
      [[1/2, 1/3, 0], [1/8, 1/6, 1/12]]
      (by norm_num [CTC.get_forward_probs, CTC.alphaF, CTC.P, List.range_succ])⟩

/-- C9: the claim reads: `get_backward_probs` works in two phases — first the
base cases `beta[T-1][S-1] = P(T-1, ext[S-1])`, `beta[T-1][S-2] =
P(T-1, ext[S-2])` and, for t from T-2 down to 0 and s down from S-1,
`beta[t][s] = (beta[t+1][s] + beta[t+1][s+1] (if s+1 < S) + beta[t+1][s+2]
(if the skip mask is set at s and s+2 < S)) * P(t, ext[s])` — and then every
entry of the table is divided exactly once by `P(t, ext[s])`.  This is
exactly what the code computes: `betaRawAt` is the phase-one table and the
returned matrix is its entrywise quotient by the emissions. -/
theorem c9_backward_two_phase
    (logits : List (List ℚ)) (ext skip : List ℕ) (bet : List (List ℚ))
    (hpos : ∀ r ∈ logits, ∀ x ∈ r, 0 < x)
    (h : CTC.get_backward_probs logits ext skip = some bet) :
    CTC.betaRawAt logits ext skip (logits.length - 1) (ext.length - 1)
        = CTC.P logits (logits.length - 1) (ext.getD (ext.length - 1) 0)
      ∧ CTC.betaRawAt logits ext skip (logits.length - 1) (ext.length - 2)
        = CTC.P logits (logits.length - 1) (ext.getD (ext.length - 2) 0)
      ∧ (∀ t s, t < logits.length - 1 → s < ext.length →
        CTC.betaRawAt logits ext skip t s =
          (CTC.betaRawAt logits ext skip (t + 1) s
            + (if s + 1 < ext.length then CTC.betaRawAt logits ext skip (t + 1) (s + 1) else 0)
            + (if skip.getD s 0 ≠ 0 ∧ s + 2 < ext.length then
                CTC.betaRawAt logits ext skip (t + 1) (s + 2) else 0))
            * CTC.P logits t (ext.getD s 0))
      ∧ (∀ t s, t < logits.length → s < ext.length →
        CTC.matEntry bet t s
          = CTC.betaRawAt logits ext skip t s / CTC.P logits t (ext.getD s 0)) := by
  rw [CTC.get_backward_probs] at h
  split_ifs at h with hg
  obtain ⟨hT, hS, -, -⟩ := hg
  rw [Option.some.injEq] at h
  refine ⟨?_, ?_, ?_, ?_⟩
  · rw [CTC.betaRawAt, Nat.sub_self]
    simp [CTC.betaRawF]
  · rw [CTC.betaRawAt, Nat.sub_self]
    simp only [CTC.betaRawF]
    rw [if_neg (by omega)]
    simp
  · intro t s ht hs
    have hk : logits.length - 1 - t = (logits.length - 2 - t) + 1 := by omega
    have hk1 : logits.length - 1 - (t + 1) = logits.length - 2 - t := by omega
    have hk2 : logits.length - 2 - (logits.length - 2 - t) = t := by omega
    rw [CTC.betaRawAt, CTC.betaRawAt, CTC.betaRawAt, CTC.betaRawAt, hk, hk1]
    simp only [CTC.betaRawF]
    rw [if_pos hs, hk2]
  · intro t s ht hs
    rw [← h, CTC.matEntry, getD_range_map _ _ ht, getD_range_map _ _ hs]

/-- Witness for the claim-C9 theorem at the concrete positive 2×2 emission
matrix [[1/2, 1/3], [1/4, 1/5]] and extended sequence [0, 1, 0] with no
skips: the first-phase table is [[1/8, 3/20, 1/8], [0, 1/5, 1/4]] at rows
0 and 1 and the returned table [[1/5, 9/20, 1/4], [0, 1, 1]] is its
entrywise quotient by the emissions. -/
theorem c9_backward_two_phase_witness :
    CTC.betaRawAt [[(1 : ℚ)/2, 1/3], [1/4, 1/5]] [0, 1, 0] [0, 0, 0] 1 2
        = CTC.P [[(1 : ℚ)/2, 1/3], [1/4, 1/5]] 1 (([0, 1, 0] : List ℕ).getD 2 0)
      ∧ CTC.betaRawAt [[(1 : ℚ)/2, 1/3], [1/4, 1/5]] [0, 1, 0] [0, 0, 0] 1 1
        = CTC.P [[(1 : ℚ)/2, 1/3], [1/4, 1/5]] 1 (([0, 1, 0] : List ℕ).getD 1 0)
      ∧ (∀ t s, t < ([[(1 : ℚ)/2, 1/3], [1/4, 1/5]] : List (List ℚ)).length - 1 →
          s < ([0, 1, 0] : List ℕ).length →
          CTC.betaRawAt [[(1 : ℚ)/2, 1/3], [1/4, 1/5]] [0, 1, 0] [0, 0, 0] t s =
            (CTC.betaRawAt [[(1 : ℚ)/2, 1/3], [1/4, 1/5]] [0, 1, 0] [0, 0, 0] (t + 1) s
              + (if s + 1 < ([0, 1, 0] : List ℕ).length then
                  CTC.betaRawAt [[(1 : ℚ)/2, 1/3], [1/4, 1/5]] [0, 1, 0] [0, 0, 0] (t + 1) (s + 1)
                else 0)
              + (if ([0, 0, 0] : List ℕ).getD s 0 ≠ 0 ∧ s + 2 < ([0, 1, 0] : List ℕ).length then
                  CTC.betaRawAt [[(1 : ℚ)/2, 1/3], [1/4, 1/5]] [0, 1, 0] [0, 0, 0] (t + 1) (s + 2)
                else 0))
              * CTC.P [[(1 : ℚ)/2, 1/3], [1/4, 1/5]] t (([0, 1, 0] : List ℕ).getD s 0))
      ∧ (∀ t s, t < ([[(1 : ℚ)/2, 1/3], [1/4, 1/5]] : List (List ℚ)).length →
          s < ([0, 1, 0] : List ℕ).length →
          CTC.matEntry [[(1 : ℚ)/5, 9/20, 1/4], [0, 1, 1]] t s
            = CTC.betaRawAt [[(1 : ℚ)/2, 1/3], [1/4, 1/5]] [0, 1, 0] [0, 0, 0] t s
              / CTC.P [[(1 : ℚ)/2, 1/3], [1/4, 1/5]] t (([0, 1, 0] : List ℕ).getD s 0)) :=
  c9_backward_two_phase [[(1 : ℚ)/2, 1/3], [1/4, 1/5]] [0, 1, 0] [0, 0, 0]
    [[1/5, 9/20, 1/4], [0, 1, 1]]
    (by norm_num)
    (by norm_num [CTC.get_backward_probs, CTC.betaRawAt, CTC.betaRawF, CTC.P,
      List.range_succ])
